import Mathlib

/-
Shallow embedding of the webhook-integrity and retry core of the
xrplsale/js-sdk repository.

Embedded source functions (src/services/webhooks.ts, src/utils/index.ts):
- WebhooksService.safeCompare       -> safeCompare
- WebhooksService.verifySignature   -> verifySignature
- WebhooksService.parseWebhook      -> parseWebhook
- WebhooksService.middleware        -> middleware
- RetryUtils.withRetry              -> withRetry (trace-producing model)

External runtime facilities consumed by the SDK (node crypto createHmac and
the host JSON parser JSON.parse) are injected as function parameters, the
way the SDK itself consumes them; jsonParseLite below is a concrete
executable fragment of the runtime JSON parser used for closed instances.
Strings are modelled as their character sequences; machine integers that
appear (char codes, delays) are small nonnegative values modelled as Nat.
-/

namespace XRPLSale

/-- JS falsiness of an optional string argument: undefined (none) and the
empty string are falsy; every other string is truthy. Models the checks
written as bangs on optional string parameters in the source. -/
def falsyStr : Option String → Bool
  | none => true
  | some s => s.isEmpty

/-- WebhooksService.safeCompare: return false on a length mismatch, else
XOR every pair of corresponding character codes, OR the results into an
accumulator that starts at 0, and return whether the accumulator is 0. -/
def safeCompare (a b : String) : Bool :=
  if a.length ≠ b.length then false
  else (List.zipWith (fun x y => x.toNat ^^^ y.toNat) a.data b.data).foldl
    (fun r x => r ||| x) 0 == 0

/-- WebhooksService.verifySignature. hmacHex injects the node runtime
computation createHmac of sha256 keyed by the first argument, updated with
the second, hex digest. The per-call secret and the constructor-configured
webhookSecret are optional; the source throws when both are falsy, else
keys the HMAC by the per-call secret when truthy, falling back to the
configured one, and compares against the sha256-prefixed hex digest using
safeCompare. -/
def verifySignature (hmacHex : String → String → String)
    (webhookSecret : Option String) (payload sig : String)
    (secret : Option String) : Except String Bool :=
  if falsyStr secret && falsyStr webhookSecret then
    Except.error "Webhook secret is required for signature verification"
  else
    let secretToUse :=
      if falsyStr secret then webhookSecret.getD "" else secret.getD ""
    Except.ok (safeCompare ("sha256=" ++ hmacHex secretToUse payload) sig)

/-- JSON values as produced by the host runtime JSON parser. -/
inductive JValue where
  | null : JValue
  | bool : Bool → JValue
  | str : String → JValue
  | arr : List JValue → JValue
  | obj : List (String × JValue) → JValue

/-- WebhooksService.parseWebhook: run the runtime JSON parser on the
payload; a parse failure is caught and rethrown as the invalid-payload
error; a parse success is returned as is, with no field validation. -/
def parseWebhook (jsonParse : String → Option JValue) (payload : String) :
    Except String JValue :=
  match jsonParse payload with
  | some v => Except.ok v
  | none => Except.error "Invalid webhook payload"

/-- The options object accepted by WebhooksService.middleware. -/
structure MwOptions where
  secret : Option String
  verifySig : Option Bool

/-- The request data the middleware consumes: the raw body and the
x-xrpl-sale-signature header value (none when the header is absent). -/
structure WebhookReq where
  body : String
  sigHeader : Option String

/-- The observable outcome of one middleware invocation: an immediate
response with a status code and error message, or a call to next with the
parsed event attached to the request. -/
inductive MwOutcome where
  | respond : Nat → String → MwOutcome
  | next : JValue → MwOutcome

/-- The per-call secret the middleware passes to verifySignature
(options question-mark secret in the source). -/
def mwOptSecret : Option MwOptions → Option String
  | none => none
  | some o => o.secret

/-- Whether the middleware performs signature verification: enabled unless
the options object is present with verifySignature set to false. -/
def mwVerifyEnabled : Option MwOptions → Bool
  | none => true
  | some o => o.verifySig != some false

/-- The parse stage shared by both middleware paths: parse the raw body,
mapping a parse failure to a 400 response (the catch block) and success to
next with the event. -/
def mwParseStage (jsonParse : String → Option JValue) (rawBody : String) :
    MwOutcome :=
  match parseWebhook jsonParse rawBody with
  | Except.error msg => MwOutcome.respond 400 msg
  | Except.ok ev => MwOutcome.next ev

/-- WebhooksService.middleware: when verification is enabled, a falsy
signature header yields 401 missing-signature; a failed verification
yields 401 invalid-signature; an exception thrown by verifySignature is
caught by the surrounding try and yields 400 with the thrown message;
otherwise the body is parsed and either 400 (caught parse error) or next
with the parsed event results. -/
def middleware (hmacHex : String → String → String)
    (jsonParse : String → Option JValue) (webhookSecret : Option String)
    (options : Option MwOptions) (req : WebhookReq) : MwOutcome :=
  let rawBody := req.body
  if mwVerifyEnabled options then
    if falsyStr req.sigHeader then
      MwOutcome.respond 401 "Missing signature header"
    else
      match verifySignature hmacHex webhookSecret rawBody
          (req.sigHeader.getD "") (mwOptSecret options) with
      | Except.error msg => MwOutcome.respond 400 msg
      | Except.ok false => MwOutcome.respond 401 "Invalid signature"
      | Except.ok true => mwParseStage jsonParse rawBody
  else
    mwParseStage jsonParse rawBody

/-- The trace of one RetryUtils.withRetry execution: the returned or
thrown outcome, the number of times the operation was invoked, and the
list of backoff delays awaited, in order. -/
structure RetryTrace (E T : Type) where
  result : Except E T
  attempts : Nat
  waits : List Nat

/-- The loop body of RetryUtils.withRetry: i is the current 0-indexed
attempt, fuel the number of attempts still allowed after this one
(maxRetries - i). On success return; on failure at fuel 0 (the final
attempt, i = maxRetries) rethrow the last error; otherwise await
delay times backoff to the power i and continue. The operation is modelled
as a function from the attempt index to that invocation's outcome. -/
def withRetryAux {E T : Type} (op : Nat → Except E T) (delay backoff : Nat) :
    Nat → Nat → RetryTrace E T
  | i, 0 => ⟨op i, 1, []⟩
  | i, fuel + 1 =>
    match op i with
    | Except.ok v => ⟨Except.ok v, 1, []⟩
    | Except.error _ =>
      let rest := withRetryAux op delay backoff (i + 1) fuel
      ⟨rest.result, rest.attempts + 1, delay * backoff ^ i :: rest.waits⟩

/-- RetryUtils.withRetry with its trace: runs attempts 0 through
maxRetries, with exponential backoff between failed non-final attempts. -/
def withRetry {E T : Type} (op : Nat → Except E T)
    (maxRetries delay backoff : Nat) : RetryTrace E T :=
  withRetryAux op delay backoff 0 maxRetries

/-- Whitespace skipping for the JSON parser fragment. -/
def skipWs : List Char → List Char
  | [] => []
  | c :: cs =>
    if c = ' ' || c = '\n' || c = '\t' || c = '\r' then skipWs cs else c :: cs

/-- Body of a JSON string after the opening quote, up to the closing
quote; escape sequences are outside the fragment and rejected. -/
def parseStrChars : List Char → Option (List Char × List Char)
  | [] => none
  | c :: cs =>
    if c = '"' then some ([], cs)
    else if c = '\\' then none
    else
      match parseStrChars cs with
      | some (body, rest) => some (c :: body, rest)
      | none => none

mutual

/-- One JSON value of the fragment: objects, arrays, strings without
escapes, and the literals null, true and false; fuel bounds nesting. -/
def parseVal : Nat → List Char → Option (JValue × List Char)
  | 0, _ => none
  | fuel + 1, cs =>
    match skipWs cs with
    | '{' :: rest =>
      (match skipWs rest with
       | '}' :: rest2 => some (JValue.obj [], rest2)
       | rest2 =>
         match parseMembers fuel rest2 with
         | some (fields, rest3) => some (JValue.obj fields, rest3)
         | none => none)
    | '[' :: rest =>
      (match skipWs rest with
       | ']' :: rest2 => some (JValue.arr [], rest2)
       | rest2 =>
         match parseElems fuel rest2 with
         | some (xs, rest3) => some (JValue.arr xs, rest3)
         | none => none)
    | '"' :: rest =>
      (match parseStrChars rest with
       | some (body, rest2) => some (JValue.str (String.mk body), rest2)
       | none => none)
    | 'n' :: 'u' :: 'l' :: 'l' :: rest => some (JValue.null, rest)
    | 't' :: 'r' :: 'u' :: 'e' :: rest => some (JValue.bool true, rest)
    | 'f' :: 'a' :: 'l' :: 's' :: 'e' :: rest => some (JValue.bool false, rest)
    | _ => none

/-- Nonempty member list of a JSON object, starting at the first key and
consuming the closing brace. -/
def parseMembers : Nat → List Char → Option (List (String × JValue) × List Char)
  | 0, _ => none
  | fuel + 1, cs =>
    match skipWs cs with
    | '"' :: rest =>
      (match parseStrChars rest with
       | some (key, rest2) =>
         (match skipWs rest2 with
          | ':' :: rest3 =>
            (match parseVal fuel rest3 with
             | some (v, rest4) =>
               (match skipWs rest4 with
                | ',' :: rest5 =>
                  (match parseMembers fuel rest5 with
                   | some (fields, rest6) =>
                     some ((String.mk key, v) :: fields, rest6)
                   | none => none)
                | '}' :: rest5 => some ([(String.mk key, v)], rest5)
                | _ => none)
             | none => none)
          | _ => none)
       | none => none)
    | _ => none

/-- Nonempty element list of a JSON array, consuming the closing
bracket. -/
def parseElems : Nat → List Char → Option (List JValue × List Char)
  | 0, _ => none
  | fuel + 1, cs =>
    match parseVal fuel cs with
    | some (v, rest) =>
      (match skipWs rest with
       | ',' :: rest2 =>
         (match parseElems fuel rest2 with
          | some (xs, rest3) => some (v :: xs, rest3)
          | none => none)
       | ']' :: rest2 => some ([v], rest2)
       | _ => none)
    | none => none

end

/-- A concrete executable fragment of the host runtime JSON parser
(JSON.parse): objects, arrays, escape-free strings and the three literals,
with surrounding whitespace; numbers and escapes are outside the fragment
and rejected. On inputs inside the fragment it agrees with JSON.parse.
Injected into parseWebhook and middleware for closed instances. -/
def jsonParseLite (s : String) : Option JValue :=
  match parseVal (s.length + 1) s.data with
  | some (v, rest) => if skipWs rest = [] then some v else none
  | none => none

/-- Modelled from the spec: the required top-level fields of a
WebhookEvent (id, type, data, timestamp, version); a structurally complete
event is an object carrying all five. -/
def hasRequiredWebhookFields : JValue → Bool
  | JValue.obj fields =>
    ["id", "type", "data", "timestamp", "version"].all
      (fun k => fields.any (fun kv => kv.fst == k))
  | _ => false

theorem lor_eq_zero_iff (m n : Nat) : (m ||| n) = 0 ↔ m = 0 ∧ n = 0 := by
  constructor
  · intro h
    have hb : ∀ k, (m.testBit k || n.testBit k) = false := by
      intro k
      have hk := congrArg (fun x => Nat.testBit x k) h
      simpa [Nat.testBit_lor] using hk
    constructor
    · exact Nat.eq_of_testBit_eq
        (fun k => by simpa using (Bool.or_eq_false_iff.mp (hb k)).1)
    · exact Nat.eq_of_testBit_eq
        (fun k => by simpa using (Bool.or_eq_false_iff.mp (hb k)).2)
  · rintro ⟨rfl, rfl⟩
    rfl

theorem foldl_lor_eq_zero (l : List Nat) (acc : Nat) :
    l.foldl (fun r x => r ||| x) acc = 0 ↔ acc = 0 ∧ ∀ x ∈ l, x = 0 := by
  induction l generalizing acc with
  | nil => simp
  | cons y ys ih =>
    rw [List.foldl_cons, ih, lor_eq_zero_iff]
    simp only [List.mem_cons]
    constructor
    · rintro ⟨⟨ha, hy⟩, hall⟩
      exact ⟨ha, fun x hx => hx.elim (fun hxy => hxy ▸ hy) (hall x)⟩
    · rintro ⟨ha, hall⟩
      exact ⟨⟨ha, hall y (Or.inl rfl)⟩, fun x hx => hall x (Or.inr hx)⟩

theorem char_toNat_inj {a b : Char} (h : a.toNat = b.toNat) : a = b := by
  apply Char.eq_of_val_eq
  apply UInt32.eq_of_toBitVec_eq
  have h2 : a.val.toNat = b.val.toNat := h
  exact BitVec.eq_of_toNat_eq h2

theorem zipWith_xor_all_zero (a : List Char) :
    ∀ b : List Char, a.length = b.length →
      ((∀ x ∈ List.zipWith (fun x y => x.toNat ^^^ y.toNat) a b, x = 0) ↔
        a = b) := by
  induction a with
  | nil =>
    intro b hb
    cases b with
    | nil => simp
    | cons d ds => simp at hb
  | cons c cs ih =>
    intro b hb
    cases b with
    | nil => simp at hb
    | cons d ds =>
      have hlen : cs.length = ds.length := by simpa using hb
      rw [List.zipWith_cons_cons]
      simp only [List.mem_cons, List.cons.injEq]
      constructor
      · intro hall
        have hhead : c.toNat ^^^ d.toNat = 0 :=
          hall (c.toNat ^^^ d.toNat) (Or.inl rfl)
        have hcd : c = d := char_toNat_inj (Nat.xor_eq_zero.mp hhead)
        have htail : cs = ds :=
          (ih ds hlen).mp (fun x hx => hall x (Or.inr hx))
        exact ⟨hcd, htail⟩
      · rintro ⟨rfl, rfl⟩
        intro x hx
        rcases hx with hx | hx
        · simpa using hx
        · exact ((ih cs rfl).mpr rfl) x hx

theorem string_data_eq {a b : String} (h : a.data = b.data) : a = b := by
  cases a
  cases b
  exact congrArg String.mk h

theorem safeCompare_eq_true_iff (a b : String) (h : a.length = b.length) :
    (safeCompare a b = true ↔ a = b) := by
  unfold safeCompare
  rw [if_neg (by simp [h]), beq_iff_eq, foldl_lor_eq_zero]
  have hlen : a.data.length = b.data.length := h
  rw [zipWith_xor_all_zero a.data b.data hlen]
  constructor
  · rintro ⟨-, hd⟩
    exact string_data_eq hd
  · rintro rfl
    exact ⟨rfl, rfl⟩

theorem safeCompare_refl (a : String) : safeCompare a a = true :=
  (safeCompare_eq_true_iff a a rfl).mpr rfl

/-- C4: safeCompare returns false whenever the two strings have different
lengths; for equal-length strings the XOR-of-character-codes OR
accumulation makes it return true exactly when the strings are equal. -/
theorem safeCompare_spec (a b : String) :
    (a.length ≠ b.length → safeCompare a b = false) ∧
    (a.length = b.length → (safeCompare a b = true ↔ a = b)) :=
  ⟨fun h => by unfold safeCompare; rw [if_pos h],
   fun h => safeCompare_eq_true_iff a b h⟩

/-- C4 witness at concrete strings of unequal and equal length. -/
theorem safeCompare_spec_witness :
    safeCompare "ab" "abc" = false ∧ safeCompare "abc" "abc" = true :=
  ⟨(safeCompare_spec "ab" "abc").1 (by decide),
   ((safeCompare_spec "abc" "abc").2 rfl).mpr rfl⟩

/-- C3: verifying a signature built as sha256= plus the hex HMAC of the
payload keyed by the same truthy per-call secret succeeds, for any HMAC
function, payload, and configured default. -/
theorem verify_sign_roundtrip (hmacHex : String → String → String)
    (webhookSecret : Option String) (payload s : String)
    (h : s.isEmpty = false) :
    verifySignature hmacHex webhookSecret payload
      ("sha256=" ++ hmacHex s payload) (some s) = Except.ok true := by
  unfold verifySignature
  simp [falsyStr, h, safeCompare_refl]

/-- C3 witness with a concrete injected HMAC function. -/
theorem verify_sign_roundtrip_witness :
    verifySignature (fun a b => a ++ b) none "p"
      ("sha256=" ++ ("k" ++ "p")) (some "k") = Except.ok true :=
  verify_sign_roundtrip (fun a b => a ++ b) none "p" "k" rfl

/-- C7: verifySignature throws the missing-secret error exactly when both
the per-call secret and the configured default are falsy, and when either
is truthy it returns a boolean comparison outcome without throwing. -/
theorem verifySignature_config_error (hmacHex : String → String → String)
    (webhookSecret : Option String) (payload sig : String)
    (secret : Option String) :
    ((∃ msg, verifySignature hmacHex webhookSecret payload sig secret =
        Except.error msg) ↔
      falsyStr secret = true ∧ falsyStr webhookSecret = true) ∧
    (falsyStr secret = false ∨ falsyStr webhookSecret = false →
      ∃ b, verifySignature hmacHex webhookSecret payload sig secret =
        Except.ok b) := by
  unfold verifySignature
  rcases hs : falsyStr secret <;> rcases hw : falsyStr webhookSecret <;> simp

/-- C7 witness: with a configured default and no per-call secret the call
returns a boolean. -/
theorem verifySignature_config_error_witness :
    ∃ b, verifySignature (fun a b => a ++ b) (some "k") "p" "s" none =
      Except.ok b :=
  (verifySignature_config_error (fun a b => a ++ b) (some "k") "p" "s"
    none).2 (Or.inr rfl)

/-- C9: an empty per-call secret behaves exactly like an absent one, and
with no configured default it yields the missing-secret error rather than
an HMAC keyed by the empty string. -/
theorem verifySignature_empty_secret (hmacHex : String → String → String)
    (webhookSecret : Option String) (payload sig : String) :
    verifySignature hmacHex webhookSecret payload sig (some "") =
      verifySignature hmacHex webhookSecret payload sig none ∧
    verifySignature hmacHex none payload sig (some "") =
      Except.error "Webhook secret is required for signature verification" :=
  ⟨rfl, rfl⟩

theorem withRetryAux_fail {E T : Type} (op : Nat → Except E T)
    (delay backoff : Nat) (hfail : ∀ j, ∃ e, op j = Except.error e) :
    ∀ (fuel i : Nat),
      (withRetryAux op delay backoff i fuel).attempts = fuel + 1 ∧
      (withRetryAux op delay backoff i fuel).result = op (i + fuel) := by
  intro fuel
  induction fuel with
  | zero => intro i; simp [withRetryAux]
  | succ n ih =>
    intro i
    obtain ⟨e, he⟩ := hfail i
    have hidx : i + 1 + n = i + (n + 1) := by omega
    have h1 := (ih (i + 1)).1
    have h2 := (ih (i + 1)).2
    rw [hidx] at h2
    simp [withRetryAux, he, h1, h2]

theorem withRetryAux_waits {E T : Type} (op : Nat → Except E T)
    (delay backoff : Nat) :
    ∀ (fuel i j : Nat),
      j < (withRetryAux op delay backoff i fuel).waits.length →
      (withRetryAux op delay backoff i fuel).waits.getD j 0 =
        delay * backoff ^ (i + j) := by
  intro fuel
  induction fuel with
  | zero => intro i j h; simp [withRetryAux] at h
  | succ n ih =>
    intro i j h
    rcases he : op i with e | v
    · rcases j with _ | j
      · simp [withRetryAux, he]
      · simp only [withRetryAux, he] at h ⊢
        simp only [List.length_cons, Nat.add_lt_add_iff_right] at h
        have := ih (i + 1) j h
        rw [List.getD_cons_succ, this]
        have hidx : i + 1 + j = i + (j + 1) := by omega
        rw [hidx]
    · simp [withRetryAux, he] at h

theorem withRetryAux_attempts_pos {E T : Type} (op : Nat → Except E T)
    (delay backoff : Nat) :
    ∀ (fuel i : Nat), 1 ≤ (withRetryAux op delay backoff i fuel).attempts := by
  intro fuel
  induction fuel with
  | zero => intro i; simp [withRetryAux]
  | succ n ih =>
    intro i
    rcases he : op i with e | v <;> simp [withRetryAux, he]

/-- C2: an always-failing operation is invoked exactly maxRetries + 1
times and the error observed on the final attempt is rethrown unchanged,
with no wrapping. -/
theorem withRetry_exhaustion {E T : Type} (op : Nat → Except E T)
    (maxRetries delay backoff : Nat)
    (hfail : ∀ j, ∃ e, op j = Except.error e) :
    (withRetry op maxRetries delay backoff).attempts = maxRetries + 1 ∧
    (withRetry op maxRetries delay backoff).result = op maxRetries := by
  have h := withRetryAux_fail op delay backoff hfail maxRetries 0
  simpa [withRetry] using h

/-- C2 witness: maxRetries 3 gives 4 invocations and the fourth attempt's
error. -/
theorem withRetry_exhaustion_witness :
    (withRetry (fun i => (Except.error i : Except Nat Unit)) 3 1000 2).attempts
        = 4 ∧
    (withRetry (fun i => (Except.error i : Except Nat Unit)) 3 1000 2).result
        = Except.error 3 :=
  withRetry_exhaustion (fun i => (Except.error i : Except Nat Unit)) 3 1000 2
    (fun j => ⟨j, rfl⟩)

/-- C5: the j-th backoff wait performed by withRetry equals
delay times backoff to the power j. -/
theorem withRetry_backoff {E T : Type} (op : Nat → Except E T)
    (maxRetries delay backoff j : Nat)
    (h : j < (withRetry op maxRetries delay backoff).waits.length) :
    (withRetry op maxRetries delay backoff).waits.getD j 0 =
      delay * backoff ^ j := by
  have := withRetryAux_waits op delay backoff maxRetries 0 j h
  simpa [withRetry] using this

/-- C5 witness: with base delay 1000 and multiplier 2 the successive waits
are 1000, 2000 and 4000. -/
theorem withRetry_backoff_witness :
    (withRetry (fun i => (Except.error i : Except Nat Unit))
        3 1000 2).waits.getD 0 0 = 1000 ∧
    (withRetry (fun i => (Except.error i : Except Nat Unit))
        3 1000 2).waits.getD 1 0 = 2000 ∧
    (withRetry (fun i => (Except.error i : Except Nat Unit))
        3 1000 2).waits.getD 2 0 = 4000 :=
  ⟨withRetry_backoff (fun i => (Except.error i : Except Nat Unit))
      3 1000 2 0 (by decide),
   withRetry_backoff (fun i => (Except.error i : Except Nat Unit))
      3 1000 2 1 (by decide),
   withRetry_backoff (fun i => (Except.error i : Except Nat Unit))
      3 1000 2 2 (by decide)⟩

/-- C6: an operation failing on attempts 1 and 2 and succeeding on
attempt 3, run with maxRetries 3, returns the successful value after
exactly three invocations and exactly two backoff waits. -/
theorem withRetry_success_path {E T : Type} (op : Nat → Except E T)
    (delay backoff : Nat) (v : T)
    (h0 : ∃ e, op 0 = Except.error e) (h1 : ∃ e, op 1 = Except.error e)
    (h2 : op 2 = Except.ok v) :
    withRetry op 3 delay backoff =
      ⟨Except.ok v, 3, [delay * backoff ^ 0, delay * backoff ^ 1]⟩ := by
  obtain ⟨e0, he0⟩ := h0
  obtain ⟨e1, he1⟩ := h1
  simp [withRetry, withRetryAux, he0, he1, h2]

/-- C6 witness at a concrete operation failing twice then succeeding. -/
theorem withRetry_success_path_witness :
    withRetry (fun i => if i < 2 then Except.error i else Except.ok "done")
        3 1000 2 =
      ⟨Except.ok "done", 3, [1000, 2000]⟩ :=
  withRetry_success_path
    (fun i => if i < 2 then Except.error i else Except.ok "done")
    1000 2 "done" ⟨0, rfl⟩ ⟨1, rfl⟩ rfl

/-- C10: the operation is always invoked at least once; with maxRetries 0
it is invoked exactly once, no backoff wait is performed, and the first
attempt's outcome is propagated as the result. -/
theorem withRetry_at_least_once {E T : Type} (op : Nat → Except E T)
    (maxRetries delay backoff : Nat) :
    1 ≤ (withRetry op maxRetries delay backoff).attempts ∧
    (withRetry op 0 delay backoff).attempts = 1 ∧
    (withRetry op 0 delay backoff).waits = [] ∧
    (withRetry op 0 delay backoff).result = op 0 :=
  ⟨withRetryAux_attempts_pos op delay backoff maxRetries 0, rfl, rfl, rfl⟩

/-- C1: with signature verification enabled, the middleware checks in
order: a falsy signature header yields the 401 missing-signature
response regardless of anything else; a present header with a failed
verification yields the 401 invalid-signature response regardless of the
body; a passed verification with a failing parse yields the 400
invalid-payload response; and a passed verification with a successful
parse calls next with the parsed event attached. -/
theorem middleware_order (hmacHex : String → String → String)
    (jsonParse : String → Option JValue) (webhookSecret : Option String)
    (options : Option MwOptions) (req : WebhookReq)
    (hen : mwVerifyEnabled options = true) :
    (falsyStr req.sigHeader = true →
      middleware hmacHex jsonParse webhookSecret options req =
        MwOutcome.respond 401 "Missing signature header") ∧
    (falsyStr req.sigHeader = false →
      (verifySignature hmacHex webhookSecret req.body (req.sigHeader.getD "")
          (mwOptSecret options) = Except.ok false →
        middleware hmacHex jsonParse webhookSecret options req =
          MwOutcome.respond 401 "Invalid signature") ∧
      (verifySignature hmacHex webhookSecret req.body (req.sigHeader.getD "")
          (mwOptSecret options) = Except.ok true →
        (jsonParse req.body = none →
          middleware hmacHex jsonParse webhookSecret options req =
            MwOutcome.respond 400 "Invalid webhook payload") ∧
        (∀ ev, jsonParse req.body = some ev →
          middleware hmacHex jsonParse webhookSecret options req =
            MwOutcome.next ev))) := by
  constructor
  · intro hf
    simp [middleware, hen, hf]
  · intro hf
    constructor
    · intro hv
      simp [middleware, hen, hf, hv]
    · intro hv
      constructor
      · intro hp
        simp [middleware, hen, hf, hv, mwParseStage, parseWebhook, hp]
      · intro ev hp
        simp [middleware, hen, hf, hv, mwParseStage, parseWebhook, hp]

/-- C1 witness: a correctly signed array body flows through to next with
the parsed event. -/
theorem middleware_order_witness :
    middleware (fun a b => a ++ b) jsonParseLite (some "k") none
        ⟨"[]", some ("sha256=" ++ ("k" ++ "[]"))⟩ =
      MwOutcome.next (JValue.arr []) := by
  have h := middleware_order (fun a b => a ++ b) jsonParseLite (some "k")
    none ⟨"[]", some ("sha256=" ++ ("k" ++ "[]"))⟩ rfl
  exact ((h.2 rfl).2 rfl).2 (JValue.arr []) rfl

/-- C8 counterexample: the empty JSON object is parsed successfully by
parseWebhook although every required WebhookEvent field is absent, so no
required-field validation is performed. -/
theorem parseWebhook_counterexample :
    parseWebhook jsonParseLite "\x7b\x7d" = Except.ok (JValue.obj []) ∧
    hasRequiredWebhookFields (JValue.obj []) = false :=
  ⟨rfl, rfl⟩

/-- C8 (amended): parseWebhook fails with the invalid-payload error
exactly when the runtime JSON parse of the payload fails, and otherwise
returns the parsed value as is, with no required-field validation. -/
theorem parseWebhook_spec (jsonParse : String → Option JValue)
    (payload : String) :
    (parseWebhook jsonParse payload = Except.error "Invalid webhook payload"
        ↔ jsonParse payload = none) ∧
    ∀ v, parseWebhook jsonParse payload = Except.ok v ↔
      jsonParse payload = some v := by
  unfold parseWebhook
  rcases h : jsonParse payload with _ | v <;> simp [h]

end XRPLSale
